import Mathlib

/-!
Shallow embedding of the yubico-node client (src/src/Yubico/Yubico.ts and
src/src/Yubico/Response.ts) and proofs about its specification claims.

JS strings are modelled as `List Char`, byte buffers as `List Nat` (each
entry a byte value), and JS `undefined` as `Option.none`.  Thrown JS
errors are modelled with `Except`, carrying the thrown message.
-/

set_option maxRecDepth 40000

namespace YubicoSpec

abbrev Str := List Char

/-! ### Byte-level primitives (Node `crypto` / `Buffer` behaviour) -/

/-- UTF-8 encoding of a single character (code point). -/
def utf8Bytes (c : Char) : List Nat :=
  let n := c.toNat
  if n < 128 then [n]
  else if n < 2048 then [192 + n / 64, 128 + n % 64]
  else if n < 65536 then [224 + n / 4096, 128 + n / 64 % 64, 128 + n % 64]
  else [240 + n / 262144, 128 + n / 4096 % 64, 128 + n / 64 % 64, 128 + n % 64]

/-- UTF-8 encoding of a string, as `Buffer.from(s, "utf8")` produces. -/
def utf8Encode (s : Str) : List Nat := s.flatMap utf8Bytes

/-- The base64 alphabet in index order. -/
def b64Alphabet : List Char :=
  "ABCDEFGHIJKLMNOPQRSTUVWXYZabcdefghijklmnopqrstuvwxyz0123456789+/".data

/-- Character for a 6-bit group. -/
def b64Char (n : Nat) : Char := b64Alphabet.getD n 'A'

/-- Standard base64 encoding with padding, as `digest("base64")` produces. -/
def base64Encode : List Nat → List Char
  | [] => []
  | [a] => [b64Char (a / 4), b64Char (a % 4 * 16), '=', '=']
  | [a, b] => [b64Char (a / 4), b64Char (a % 4 * 16 + b / 16), b64Char (b % 16 * 4), '=']
  | a :: b :: c :: rest =>
    b64Char (a / 4) :: b64Char (a % 4 * 16 + b / 16) ::
      b64Char (b % 16 * 4 + c / 64) :: b64Char (c % 64) :: base64Encode rest

/-- Index of a character in the base64 alphabet. -/
def b64Index (c : Char) : Option Nat := b64Alphabet.indexOf? c

/-- Rebuild bytes from a list of 6-bit groups. -/
def base64DecodeCore : List Nat → List Nat
  | [a, b] => [a * 4 + b / 16]
  | [a, b, c] => [a * 4 + b / 16, b % 16 * 16 + c / 4]
  | a :: b :: c :: d :: rest =>
    (a * 4 + b / 16) :: (b % 16 * 16 + c / 4) :: (c % 4 * 64 + d) :: base64DecodeCore rest
  | _ => []

/-- Lenient base64 decoding as `Buffer.from(s, "base64")` performs:
characters outside the alphabet are skipped, decoding stops at `=`. -/
def base64Decode (s : Str) : List Nat :=
  base64DecodeCore ((s.takeWhile (· ≠ '=')).filterMap b64Index)

/-- 32-bit left rotation. -/
def rotl32 (n x : Nat) : Nat :=
  ((x <<< n) ||| (x >>> (32 - n))) % 4294967296

/-- Big-endian 4-byte words from bytes, 4 at a time. -/
def bytesToWords : List Nat → List Nat
  | a :: b :: c :: d :: rest => (((a * 256 + b) * 256 + c) * 256 + d) :: bytesToWords rest
  | _ => []

/-- Big-endian bytes of a 32-bit word. -/
def wordBytes (w : Nat) : List Nat :=
  [w / 16777216 % 256, w / 65536 % 256, w / 256 % 256, w % 256]

/-- Big-endian 8-byte encoding of a length in bits. -/
def be64 (n : Nat) : List Nat :=
  [n / 72057594037927936 % 256, n / 281474976710656 % 256, n / 1099511627776 % 256,
   n / 4294967296 % 256, n / 16777216 % 256, n / 65536 % 256, n / 256 % 256, n % 256]

/-- Extend a 16-word message schedule by `n` further words (SHA-1 rule). -/
def sha1Extend (ws : List Nat) : Nat → List Nat
  | 0 => ws
  | n + 1 =>
    let len := ws.length
    let w := rotl32 1 (ws.getD (len - 3) 0 ^^^ ws.getD (len - 8) 0 ^^^
      ws.getD (len - 14) 0 ^^^ ws.getD (len - 16) 0)
    sha1Extend (ws ++ [w]) n

/-- One SHA-1 round. -/
def sha1Round (st : Nat × Nat × Nat × Nat × Nat) (iw : Nat × Nat) :
    Nat × Nat × Nat × Nat × Nat :=
  let (a, b, c, d, e) := st
  let (i, w) := iw
  let f :=
    if i < 20 then (b &&& c) ||| ((b ^^^ 4294967295) &&& d)
    else if i < 40 then b ^^^ c ^^^ d
    else if i < 60 then (b &&& c) ||| (b &&& d) ||| (c &&& d)
    else b ^^^ c ^^^ d
  let k :=
    if i < 20 then 1518500249
    else if i < 40 then 1859775393
    else if i < 60 then 2400959708
    else 3395469782
  let temp := (rotl32 5 a + f + e + k + w) % 4294967296
  (temp, a, rotl32 30 b, c, d)

/-- Compress one 64-byte block into the running state. -/
def sha1Compress (h : Nat × Nat × Nat × Nat × Nat) (block : List Nat) :
    Nat × Nat × Nat × Nat × Nat :=
  let w := sha1Extend (bytesToWords block) 64
  let (a, b, c, d, e) := w.enum.foldl sha1Round h
  let (h0, h1, h2, h3, h4) := h
  ((h0 + a) % 4294967296, (h1 + b) % 4294967296, (h2 + c) % 4294967296,
   (h3 + d) % 4294967296, (h4 + e) % 4294967296)

/-- Split a byte list into 64-byte chunks; `fuel` bounds the recursion and is
instantiated with the list length, which always suffices. -/
def chunks64 (fuel : Nat) (l : List Nat) : List (List Nat) :=
  match fuel, l with
  | 0, _ => []
  | _, [] => []
  | f + 1, a :: rest => ((a :: rest).take 64) :: chunks64 f ((a :: rest).drop 64)

/-- SHA-1 of a byte list. -/
def sha1 (msg : List Nat) : List Nat :=
  let padded := msg ++ 128 :: List.replicate ((119 - msg.length % 64) % 64) 0 ++
    be64 (8 * msg.length)
  let blocks := chunks64 padded.length padded
  let (h0, h1, h2, h3, h4) :=
    blocks.foldl sha1Compress (1732584193, 4023233417, 2562383102, 271733878, 3285377520)
  wordBytes h0 ++ wordBytes h1 ++ wordBytes h2 ++ wordBytes h3 ++ wordBytes h4

/-- HMAC-SHA1 as Node's `crypto.createHmac("sha1", key)` computes it. -/
def hmacSha1 (key msg : List Nat) : List Nat :=
  let key' := if 64 < key.length then sha1 key else key
  let key64 := key' ++ List.replicate (64 - key'.length) 0
  sha1 (key64.map (· ^^^ 92) ++ sha1 (key64.map (· ^^^ 54) ++ msg))

/-! ### JS string helpers -/

/-- `s.split(c)` of JavaScript for a single-character separator. -/
def splitOnChar (c : Char) : Str → List Str
  | [] => [[]]
  | a :: rest =>
    match splitOnChar c rest with
    | [] => [[a]]
    | s :: ss => if a = c then [] :: s :: ss else (a :: s) :: ss

/-- Join strings with a single-character separator. -/
def intercalateChar (c : Char) : List Str → Str
  | [] => []
  | [s] => s
  | s :: rest => s ++ c :: intercalateChar c rest

/-- `body.replace(/\r\n/g, "\n")`: non-overlapping left-to-right replacement. -/
def replaceCRLF : Str → Str
  | [] => []
  | [a] => [a]
  | a :: b :: rest =>
    if a = '\r' ∧ b = '\n' then '\n' :: replaceCRLF rest
    else a :: replaceCRLF (b :: rest)

/-- `current.split(/=(.+)/)` destructured to `[key, value]`: the string is cut
at the first `=` that is followed by at least one character; if there is no
such `=`, the whole line is the key and the value is `undefined`. -/
def splitFirstEq : Str → Str × Option Str
  | [] => ([], none)
  | a :: rest =>
    if a = '=' ∧ rest ≠ [] then ([], some rest)
    else
      let p := splitFirstEq rest
      (a :: p.1, p.2)

/-- Value stored for key `k` after `Object.assign` over the pairs in order:
the last binding wins; a missing key and a key bound to `undefined` both
read back as `undefined`. -/
def lookupLast (ps : List (Str × Option Str)) (k : Str) : Option Str :=
  match (ps.filter (fun p => p.1 = k)).getLast? with
  | some p => p.2
  | none => none

/-- JavaScript string coercion of a possibly-undefined string value. -/
def optStr : Option Str → Str
  | some s => s
  | none => "undefined".data

/-- Strict lexicographic comparison on UTF-16-style code points, the order
used by `Array.prototype.sort` on strings and by `URLSearchParams.sort`. -/
def strLt : Str → Str → Bool
  | [], [] => false
  | [], _ :: _ => true
  | _ :: _, [] => false
  | a :: as, b :: bs =>
    if a.toNat < b.toNat then true
    else if a.toNat = b.toNat then strLt as bs
    else false

/-- Insert into a sorted list, after any element it does not strictly
precede; together with `sortBy` this is a stable sort. -/
def insertBy (lt : α → α → Bool) (x : α) : List α → List α
  | [] => [x]
  | h :: t => if lt x h then x :: h :: t else h :: insertBy lt x t

/-- Stable insertion sort (elements are inserted in original order). -/
def sortBy (lt : α → α → Bool) (l : List α) : List α :=
  l.foldl (fun acc x => insertBy lt x acc) []

/-! ### Response (src/src/Yubico/Response.ts)

All nine fields are modelled as `Option Str`: `Response.fromRawBody` builds
the instance from whatever the body contained, so at run time any field may
be `undefined`, whatever the TypeScript annotations say. -/

structure Response where
  otp : Option Str
  nonce : Option Str
  h : Option Str
  t : Option Str
  status : Option Str
  timestamp : Option Str
  sessioncounter : Option Str
  sessionuse : Option Str
  sl : Option Str
deriving DecidableEq, Repr

/-- The key/value pairs extracted by `Response.fromRawBody` (Response.ts
lines 39-55): normalize CRLF, split on newlines, drop the last two
segments, split each remaining line at its first `=`. -/
def bodyPairs (body : Str) : List (Str × Option Str) :=
  ((splitOnChar '\n' (replaceCRLF body)).take
    ((splitOnChar '\n' (replaceCRLF body)).length - 2)).map splitFirstEq

/-- `Response.fromRawBody` (Response.ts lines 34-59): fold the extracted
pairs into an object (the last binding of a key wins) and read the nine
known keys from it. -/
def fromRawBody (body : Str) : Response :=
  { otp := lookupLast (bodyPairs body) "otp".data
    nonce := lookupLast (bodyPairs body) "nonce".data
    h := lookupLast (bodyPairs body) "h".data
    t := lookupLast (bodyPairs body) "t".data
    status := lookupLast (bodyPairs body) "status".data
    timestamp := lookupLast (bodyPairs body) "timestamp".data
    sessioncounter := lookupLast (bodyPairs body) "sessioncounter".data
    sessionuse := lookupLast (bodyPairs body) "sessionuse".data
    sl := lookupLast (bodyPairs body) "sl".data }

/-- The `errorMessages` mapping of `validate` (Response.ts lines 81-91),
keyed by the raw status string. -/
def statusErrorMessage : Option Str → Option Str
  | some s =>
    if s = "BAD_OTP".data then some "The OTP is invalid format".data
    else if s = "REPLAYED_OTP".data then
      some "The OTP has already been seen by the service.".data
    else if s = "BAD_SIGNATURE".data then
      some "The HMAC signature verification failed.".data
    else if s = "MISSING_PARAMETER".data then
      some "The request lacks a parameter.".data
    else if s = "NO_SUCH_CLIENT".data then
      some "The client id does not exist. If you just registered for one, please give it 10 minutes to propagate".data
    else if s = "OPERATION_NOT_ALLOWED".data then
      some "The client id is not allowed to verify OTPs.".data
    else if s = "BACKEND_ERROR".data then
      some "Unexpected error in our server. Please contact Yubico if you see this error.".data
    else if s = "NOT_ENOUGH_ANSWERS".data then
      some "Server could not get requested number of syncs during before timeout.".data
    else if s = "REPLAYED_REQUEST".data then
      some "Server has seen the OTP/Nonce combination before".data
    else none
  | none => none

/-- The error thrown by `validate` for a record whose status is not OK:
the mapped message, or the `Unknown status` message (JS concatenates the
raw value, printing `undefined` for a missing one). -/
def nonOkErrorMsg (st : Option Str) : Str :=
  match statusErrorMessage st with
  | some msg => msg
  | none => "Unknown status ".data ++ optStr st

/-- The fixed key list of `validate` (Response.ts line 107). -/
def hashKeys : List Str :=
  ["nonce".data, "otp".data, "sessioncounter".data, "sessionuse".data,
   "sl".data, "status".data, "t".data, "timestamp".data]

/-- Dynamic field access `(this as any)[key]` for the keys of `hashKeys`. -/
def fieldGet (r : Response) (k : Str) : Option Str :=
  if k = "nonce".data then r.nonce
  else if k = "otp".data then r.otp
  else if k = "sessioncounter".data then r.sessioncounter
  else if k = "sessionuse".data then r.sessionuse
  else if k = "sl".data then r.sl
  else if k = "status".data then r.status
  else if k = "t".data then r.t
  else if k = "timestamp".data then r.timestamp
  else none

/-- The canonical string hashed by `validate` (Response.ts lines 110-114):
keep the defined keys, sort them, join them as `k=v` pairs with `&`. -/
def canonicalBody (r : Response) : Str :=
  intercalateChar '&'
    ((sortBy strLt (hashKeys.filter (fun k => (fieldGet r k).isSome))).map
      (fun k => k ++ '=' :: (fieldGet r k).getD []))

/-- `Response.validate` (Response.ts lines 79-132).  A thrown `Error` is
modelled as `Except.error` carrying the thrown message. -/
def validate (r : Response) (nonce secret otp : Str) : Except Str Unit :=
  if r.status ≠ some "OK".data then
    Except.error (nonOkErrorMsg r.status)
  else if r.nonce ≠ some nonce then
    Except.error "Nonces do not equal".data
  else
    let hash := base64Encode (hmacSha1 (base64Decode secret) (utf8Encode (canonicalBody r)))
    if r.h ≠ some hash then
      Except.error "Hash provided from server and client hash do not match".data
    else if r.otp ≠ some otp then
      Except.error "OTPs do not match".data
    else
      Except.ok ()

/-- `Response.validate` with the record state threaded explicitly: each
branch of the source reads fields of `this` but never assigns, so every
branch hands back the record it received. -/
def validateS (r : Response) (nonce secret otp : Str) : Except Str Unit × Response :=
  if r.status ≠ some "OK".data then
    (Except.error (nonOkErrorMsg r.status), r)
  else if r.nonce ≠ some nonce then
    (Except.error "Nonces do not equal".data, r)
  else
    let hash := base64Encode (hmacSha1 (base64Decode secret) (utf8Encode (canonicalBody r)))
    if r.h ≠ some hash then
      (Except.error "Hash provided from server and client hash do not match".data, r)
    else if r.otp ≠ some otp then
      (Except.error "OTPs do not match".data, r)
    else
      (Except.ok (), r)

/-! ### Identity decoding (Response.ts lines 176-218) -/

/-- The `modHexConversion` table of `getSerialNumber` (lines 191-208). -/
def modHexConversion (c : Char) : Option Char :=
  if c = 'b' then some '1'
  else if c = 'c' then some '0'
  else if c = 'd' then some '2'
  else if c = 'e' then some '3'
  else if c = 'f' then some '4'
  else if c = 'g' then some '5'
  else if c = 'h' then some '6'
  else if c = 'i' then some '7'
  else if c = 'j' then some '8'
  else if c = 'k' then some '9'
  else if c = 'l' then some 'A'
  else if c = 'n' then some 'B'
  else if c = 'r' then some 'C'
  else if c = 't' then some 'D'
  else if c = 'u' then some 'E'
  else if c = 'v' then some 'F'
  else none

/-- Value of a hexadecimal digit (Node's `Buffer.from(s, "hex")` accepts
both cases). -/
def hexVal (c : Char) : Option Nat :=
  if '0' ≤ c ∧ c ≤ '9' then some (c.toNat - 48)
  else if 'A' ≤ c ∧ c ≤ 'F' then some (c.toNat - 55)
  else if 'a' ≤ c ∧ c ≤ 'f' then some (c.toNat - 87)
  else none

/-- `Buffer.from(s, "hex")`: decode hex digit pairs left to right, stop at
the first invalid character, drop a trailing unpaired digit. -/
def hexPairsToBytes : Str → List Nat
  | c1 :: c2 :: rest =>
    match hexVal c1, hexVal c2 with
    | some h1, some h2 => (16 * h1 + h2) :: hexPairsToBytes rest
    | _, _ => []
  | _ => []

/-- `buf.readUIntBE(offset, len)`: big-endian unsigned read, `none` models
the `ERR_OUT_OF_RANGE` `RangeError` thrown when the requested span does not
fit in the buffer. -/
def readUIntBE (buf : List Nat) (offset len : Nat) : Option Nat :=
  if offset + len ≤ buf.length then
    some (((buf.drop offset).take len).foldl (fun acc b => acc * 256 + b) 0)
  else none

/-- How a `getSerialNumber` call can fail.  `typeError` models the JS
`TypeError` of reading `substr` of `undefined`; `rangeError` models the
`ERR_OUT_OF_RANGE` `RangeError` thrown by `readUIntBE`.
`malformedResponse` renders the specification's `MalformedResponseError`
vocabulary; the source never produces it. -/
inductive SerialFailure where
  | typeError
  | rangeError
  | malformedResponse
deriving DecidableEq, Repr

/-- `Response.getPublicId` (lines 179-181): first 12 characters of the OTP. -/
def getPublicId (r : Response) : Option Str :=
  r.otp.map (fun o => o.take 12)

/-- `Response.getSerialNumber` (lines 186-218): map the public id through
the modhex table (an unmapped character becomes `undefined`, which
`join("")` silently drops), read the result as hex bytes, and return the
6-byte big-endian integer. -/
def getSerialNumber (r : Response) : Except SerialFailure Nat :=
  match getPublicId r with
  | none => Except.error SerialFailure.typeError
  | some publicId =>
    match readUIntBE (hexPairsToBytes (publicId.filterMap modHexConversion)) 0 6 with
    | some n => Except.ok n
    | none => Except.error SerialFailure.rangeError

/-! ### Verify orchestration (src/src/Yubico/Yubico.ts) -/

/-- The result-consumption loop of `Yubico.verify` (Yubico.ts lines
189-222).  `replies` lists, in configured server order, what each request
promise resolves with (`none` for a cancelled request, a transport failure
or a non-200 reply); `failed` is the `failedResponses` accumulator. -/
def processResponses (nonce secret otp : Str) :
    List (Option Response) → List Response → Except Str Response
  | [], failed =>
    match failed with
    | [] => Except.error "Yubico API server network error".data
    | f :: _ =>
      match validate f nonce secret otp with
      | Except.error e => Except.error e
      | Except.ok _ => Except.ok f
  | none :: rest, failed => processResponses nonce secret otp rest failed
  | some r :: rest, failed =>
    if r.status = some "OK".data then
      match validate r nonce secret otp with
      | Except.error e => Except.error e
      | Except.ok _ => Except.ok r
    else
      processResponses nonce secret otp rest (failed ++ [r])

/-- Outcome of `Yubico.verify` once every request has resolved to the
values in `replies` (server-list order), starting from an empty
`failedResponses` array. -/
def verifyOutcome (nonce secret otp : Str) (replies : List (Option Response)) :
    Except Str Response :=
  processResponses nonce secret otp replies []

instance {ε α : Type} [DecidableEq ε] [DecidableEq α] : DecidableEq (Except ε α) :=
  fun x y =>
    match x, y with
    | Except.ok a, Except.ok b =>
      if h : a = b then isTrue (by rw [h]) else isFalse (by intro hh; cases hh; exact h rfl)
    | Except.error a, Except.error b =>
      if h : a = b then isTrue (by rw [h]) else isFalse (by intro hh; cases hh; exact h rfl)
    | Except.ok _, Except.error _ => isFalse (by intro hh; cases hh)
    | Except.error _, Except.ok _ => isFalse (by intro hh; cases hh)

/-- A trusted success: an OK-status reply that validates. -/
def trustedSuccess (nonce secret otp : Str) (r : Response) : Prop :=
  r.status = some "OK".data ∧ validate r nonce secret otp = Except.ok ()

instance (nonce secret otp : Str) (r : Response) :
    Decidable (trustedSuccess nonce secret otp r) := by
  unfold trustedSuccess; infer_instance

/-- The first trusted success in a stream of replies (used to state the
completion-order claim: the stream is the replies listed in completion
order). -/
def firstTrustedSuccess (nonce secret otp : Str) (l : List (Option Response)) :
    Option Response :=
  l.findSome? (fun o =>
    match o with
    | some r => if trustedSuccess nonce secret otp r then some r else none
    | none => none)

/-! ### Request signing (Yubico.ts lines 109-134) -/

/-- Byte serialization of `URLSearchParams.toString`
(application/x-www-form-urlencoded). -/
def formEncodeByte (b : Nat) : Str :=
  if (48 ≤ b ∧ b ≤ 57) ∨ (65 ≤ b ∧ b ≤ 90) ∨ (97 ≤ b ∧ b ≤ 122) ∨
      b = 42 ∨ b = 45 ∨ b = 46 ∨ b = 95 then
    [Char.ofNat b]
  else if b = 32 then ['+']
  else
    ['%', "0123456789ABCDEF".data.getD (b / 16) '0',
      "0123456789ABCDEF".data.getD (b % 16) '0']

/-- Percent-encode one component. -/
def formEncode (s : Str) : Str := (utf8Encode s).flatMap formEncodeByte

/-- `URLSearchParams.sort()`: stable sort of the parameter list by name. -/
def sortParams (ps : List (Str × Str)) : List (Str × Str) :=
  sortBy (fun a b => strLt a.1 b.1) ps

/-- `URLSearchParams.toString()`. -/
def paramsToString (ps : List (Str × Str)) : Str :=
  intercalateChar '&' (ps.map (fun p => formEncode p.1 ++ '=' :: formEncode p.2))

/-- The request signature (Yubico.ts lines 126-132): sort the parameters,
serialize, HMAC-SHA1 with the base64-decoded secret, base64-encode. -/
def requestSignature (secret : Str) (ps : List (Str × Str)) : Str :=
  base64Encode (hmacSha1 (base64Decode secret) (utf8Encode (paramsToString (sortParams ps))))

/-- The final parameter list of the request (Yubico.ts line 134): the
signature is computed over the sorted set excluding itself and appended
last as `h`. -/
def signedRequestParams (secret : Str) (ps : List (Str × Str)) : List (Str × Str) :=
  sortParams ps ++ [("h".data, requestSignature secret ps)]

/-- The parameter set assembled by `Yubico.verify` (Yubico.ts lines
109-123) before sorting and signing. -/
def verifyRequestParams (clientId otp nonce : Str) (sl timeout : Option Str) :
    List (Str × Str) :=
  [("id".data, clientId), ("otp".data, otp), ("timestamp".data, "1".data),
    ("nonce".data, nonce)] ++
  (match sl with | some v => [("sl".data, v)] | none => []) ++
  (match timeout with | some v => [("timeout".data, v)] | none => [])

/-! ### Well-formed server encoding (for the parse round-trip claims)

The encoder below follows the specification's description of a well-formed
server reply: one `key=value` line per defined field, lines separated by
newlines, terminated by a trailing blank segment. -/

/-- The nine recognized fields with their keys, in record order. -/
def fieldTemplate (r : Response) : List (Str × Option Str) :=
  [("otp".data, r.otp), ("nonce".data, r.nonce), ("h".data, r.h), ("t".data, r.t),
   ("status".data, r.status), ("timestamp".data, r.timestamp),
   ("sessioncounter".data, r.sessioncounter), ("sessionuse".data, r.sessionuse),
   ("sl".data, r.sl)]

/-- The defined fields of a record, as key/value pairs. -/
def definedPairs (r : Response) : List (Str × Str) :=
  (fieldTemplate r).filterMap (fun p => p.2.map (fun v => (p.1, v)))

/-- One `key=value` line. -/
def lineOf (p : Str × Str) : Str := p.1 ++ '=' :: p.2

/-- The parsed pairs a well-formed encoding of a field template produces:
each defined entry survives with its key and its value wrapped in `some`. -/
def liftPairs (L : List (Str × Option Str)) : List (Str × Option Str) :=
  (L.filterMap (fun p => p.2.map (fun v => (p.1, v)))).map (fun p => (p.1, some p.2))

/-- Encode a field map as newline-separated `key=value` lines terminated by
a trailing blank segment (the final two segments produced by splitting are
empty, as in a well-formed server reply). -/
def encodeFields (r : Response) : Str :=
  intercalateChar '\n' ((definedPairs r).map lineOf ++ [[], []])

/-- A well-formed field value: non-empty, with no line breaks. -/
def wfValue (v : Str) : Prop := v ≠ [] ∧ '\n' ∉ v ∧ '\r' ∉ v

/-- Option-level well-formedness. -/
def wfOpt : Option Str → Prop
  | none => True
  | some v => wfValue v

/-- A field map whose defined values are all well-formed. -/
def wellFormed (r : Response) : Prop :=
  wfOpt r.otp ∧ wfOpt r.nonce ∧ wfOpt r.h ∧ wfOpt r.t ∧ wfOpt r.status ∧
  wfOpt r.timestamp ∧ wfOpt r.sessioncounter ∧ wfOpt r.sessionuse ∧ wfOpt r.sl

instance (v : Str) : Decidable (wfValue v) :=
  inferInstanceAs (Decidable (v ≠ [] ∧ '\n' ∉ v ∧ '\r' ∉ v))

instance : ∀ v : Option Str, Decidable (wfOpt v)
  | none => isTrue trivial
  | some v => inferInstanceAs (Decidable (wfValue v))

instance (r : Response) : Decidable (wellFormed r) :=
  inferInstanceAs (Decidable (_ ∧ _ ∧ _ ∧ _ ∧ _ ∧ _ ∧ _ ∧ _ ∧ _))

/-! ### The canonical modhex substitution (specification oracle) -/

/-- The canonical modhex table as nibble values: c maps to 0, b to 1, d to 2,
e to 3, f to 4, g to 5, h to 6, i to 7, j to 8, k to 9, l to 10, n to 11,
r to 12, t to 13, u to 14, v to 15. -/
def modHexNibble (c : Char) : Option Nat :=
  if c = 'b' then some 1
  else if c = 'c' then some 0
  else if c = 'd' then some 2
  else if c = 'e' then some 3
  else if c = 'f' then some 4
  else if c = 'g' then some 5
  else if c = 'h' then some 6
  else if c = 'i' then some 7
  else if c = 'j' then some 8
  else if c = 'k' then some 9
  else if c = 'l' then some 10
  else if c = 'n' then some 11
  else if c = 'r' then some 12
  else if c = 't' then some 13
  else if c = 'u' then some 14
  else if c = 'v' then some 15
  else none

/-! ### Concrete records used by witnesses and counterexamples

`recA` and `recB` are two distinct records that both validate against
nonce `n`, OTP `o` and the empty secret: their `h` fields are the actual
HMAC-SHA1 signatures of their canonical strings
(`nonce=n&otp=o&status=OK` and `nonce=n&otp=o&sl=5&status=OK`). -/

def recA : Response :=
  { otp := some "o".data, nonce := some "n".data,
    h := some "EH/76jrSgt0IoS1pYVBGjZg8YAA=".data, t := none,
    status := some "OK".data, timestamp := none, sessioncounter := none,
    sessionuse := none, sl := none }

def recB : Response :=
  { otp := some "o".data, nonce := some "n".data,
    h := some "2kEhIQBMM5VMeDm6C1nLiBUZCbI=".data, t := none,
    status := some "OK".data, timestamp := none, sessioncounter := none,
    sessionuse := none, sl := some "5".data }

/-- A reply with a non-OK status. -/
def recBadOtp : Response :=
  { otp := some "o".data, nonce := some "n".data, h := none, t := none,
    status := some "BAD_OTP".data, timestamp := none, sessioncounter := none,
    sessionuse := none, sl := none }

/-- An OK-status reply whose nonce does not match the expected nonce `n`. -/
def recNonce : Response :=
  { otp := some "o".data, nonce := some "x".data, h := none, t := none,
    status := some "OK".data, timestamp := none, sessioncounter := none,
    sessionuse := none, sl := none }

/-- A record whose OTP starts with 11 valid modhex characters and one
character (`x`) outside the modhex alphabet. -/
def recInvalidOtp : Response :=
  { otp := some "cccccccccccx".data, nonce := none, h := none, t := none,
    status := none, timestamp := none, sessioncounter := none,
    sessionuse := none, sl := none }

/-- A record whose OTP is twelve `c` characters. -/
def recZeroOtp : Response :=
  { otp := some "cccccccccccc".data, nonce := none, h := none, t := none,
    status := none, timestamp := none, sessioncounter := none,
    sessionuse := none, sl := none }

/-- A record whose OTP is a vector of twelve distinct modhex symbols. -/
def recDistinctOtp : Response :=
  { otp := some "cbdefghijkln".data, nonce := none, h := none, t := none,
    status := none, timestamp := none, sessioncounter := none,
    sessionuse := none, sl := none }

/-- A well-formed record exercising `=` inside a value (base64 padding). -/
def recRoundTrip : Response :=
  { otp := some "vvcccc".data, nonce := some "abc".data,
    h := some "ab==".data, t := some "12".data, status := some "OK".data,
    timestamp := none, sessioncounter := none, sessionuse := none,
    sl := some "25".data }

/-! ## Helper lemmas -/

theorem char_toNat_inj {a b : Char} (h : a.toNat = b.toNat) : a = b := by
  have hh := congrArg Char.ofNat h
  rwa [Char.ofNat_toNat, Char.ofNat_toNat] at hh

/-- A record whose status is not OK makes `validate` throw its
status-mapped error. -/
theorem validate_nonOk (r : Response) (n s o : Str) (h : r.status ≠ some "OK".data) :
    validate r n s o = Except.error (nonOkErrorMsg r.status) := by
  unfold validate
  rw [if_pos h]

/-- Processing reaches the first OK-status reply after skipping empty and
non-OK replies, and its `validate` outcome decides the run, whatever the
accumulated failures and the remaining replies are. -/
theorem processResponses_firstOk (nonce secret otp : Str) :
    ∀ (pre : List (Option Response)) (failed : List Response)
      (rest : List (Option Response)) (r : Response),
      (∀ x ∈ pre, x = none ∨ ∃ q, x = some q ∧ q.status ≠ some "OK".data) →
      r.status = some "OK".data →
      processResponses nonce secret otp (pre ++ some r :: rest) failed =
        match validate r nonce secret otp with
        | Except.error e => Except.error e
        | Except.ok _ => Except.ok r := by
  intro pre
  induction pre with
  | nil =>
    intro failed rest r _ hr
    simp only [List.nil_append, processResponses, hr, if_pos]
  | cons x pre ih =>
    intro failed rest r hpre hr
    rcases hpre x (List.mem_cons_self x pre) with hx | ⟨q, hx, hq⟩
    · subst hx
      simpa only [List.cons_append, processResponses] using
        ih failed rest r (fun y hy => hpre y (List.mem_cons_of_mem _ hy)) hr
    · subst hx
      simp only [List.cons_append, processResponses, if_neg hq]
      exact ih (failed ++ [q]) rest r (fun y hy => hpre y (List.mem_cons_of_mem _ hy)) hr

/-- When every reply is empty or non-OK, the loop runs to completion and
the outcome is decided by the first accumulated candidate (or the network
error when there is none). -/
theorem processResponses_allNonOk (nonce secret otp : Str) :
    ∀ (replies : List (Option Response)) (failed : List Response),
      (∀ x ∈ replies, x = none ∨ ∃ q, x = some q ∧ q.status ≠ some "OK".data) →
      (∀ f ∈ failed, f.status ≠ some "OK".data) →
      processResponses nonce secret otp replies failed =
        match failed ++ replies.filterMap id with
        | [] => Except.error "Yubico API server network error".data
        | f :: _ => Except.error (nonOkErrorMsg f.status) := by
  intro replies
  induction replies with
  | nil =>
    intro failed _ hf
    cases failed with
    | nil => rfl
    | cons f fs =>
      simp only [processResponses, List.filterMap_nil, List.append_nil]
      rw [validate_nonOk _ _ _ _ (hf f (List.mem_cons_self f fs))]
  | cons x rest ih =>
    intro failed hall hf
    rcases hall x (List.mem_cons_self x rest) with hx | ⟨q, hx, hq⟩
    · subst hx
      simp only [processResponses, List.filterMap_cons_none]
      exact ih failed (fun y hy => hall y (List.mem_cons_of_mem _ hy)) hf
    · subst hx
      simp only [processResponses, if_neg hq, List.filterMap_cons_some]
      rw [ih (failed ++ [q]) (fun y hy => hall y (List.mem_cons_of_mem _ hy))
        (by
          intro f hfm
          rcases List.mem_append.mp hfm with hfm | hfm
          · exact hf f hfm
          · rw [List.mem_singleton.mp hfm]; exact hq)]
      rw [List.append_assoc]
      rfl

/-! ## C1: validate accepts exactly the signed, nonce- and OTP-matching
records -/

/-- C1.  For every record whose status is OK and every
(secret, expectedNonce, expectedOtp), `validate` succeeds if and only if
the record's hash equals the base64-encoded HMAC-SHA1 (keyed with the
base64-decoded secret) of the canonical string built from the defined
fields of the fixed key set, its nonce equals the expected nonce, and its
OTP equals the expected OTP. -/
theorem validate_ok_iff (r : Response) (nonce secret otp : Str)
    (hst : r.status = some "OK".data) :
    validate r nonce secret otp = Except.ok () ↔
      (r.h = some (base64Encode (hmacSha1 (base64Decode secret)
          (utf8Encode (canonicalBody r)))) ∧
        r.nonce = some nonce ∧ r.otp = some otp) := by
  unfold validate
  rw [if_neg (by simp [hst])]
  by_cases hn : r.nonce = some nonce
  · rw [if_neg (by simp [hn])]
    by_cases hh : r.h = some (base64Encode (hmacSha1 (base64Decode secret)
        (utf8Encode (canonicalBody r))))
    · rw [if_neg (by simp [hh])]
      by_cases ho : r.otp = some otp
      · rw [if_neg (by simp [ho])]
        simp [hh, hn, ho]
      · rw [if_pos (by simp [ho])]
        simp [ho]
    · rw [if_pos (by simp [hh])]
      simp [hh]
  · rw [if_pos (by simp [hn])]
    simp [hn]

/-- Witness for C1 at a concrete OK record. -/
theorem validate_ok_iff_witness :
    recA.status = some "OK".data ∧
      (validate recA "n".data [] "o".data = Except.ok () ↔
        (recA.h = some (base64Encode (hmacSha1 (base64Decode [])
            (utf8Encode (canonicalBody recA)))) ∧
          recA.nonce = some "n".data ∧ recA.otp = some "o".data)) :=
  ⟨rfl, validate_ok_iff recA "n".data [] "o".data rfl⟩

/-! ## C2: replies are consumed in server-list order, not completion order -/

/-- Counterexample to C2 as stated.  `recA` and `recB` are two distinct
trusted successes.  Under the completion schedule in which the second
server answers first, the first-completing trusted success is `recB`, yet
`verify` returns `recA`, the trusted success that comes first in the
configured server list. -/
theorem verify_completion_order_false :
    ¬ (∀ (nonce secret otp : Str) (replies sched : List (Option Response)),
        sched.Perm replies →
        ∀ r, firstTrustedSuccess nonce secret otp sched = some r →
          verifyOutcome nonce secret otp replies = Except.ok r) := by
  intro hclaim
  have hperm : ([some recB, some recA] : List (Option Response)).Perm
      [some recA, some recB] := List.Perm.swap (some recA) (some recB) []
  have hfirst : firstTrustedSuccess "n".data [] "o".data [some recB, some recA] =
      some recB := by decide
  have houtcome : verifyOutcome "n".data [] "o".data [some recA, some recB] =
      Except.ok recA := by decide
  have h := hclaim "n".data [] "o".data [some recA, some recB]
    [some recB, some recA] hperm recB hfirst
  rw [houtcome] at h
  have : recA = recB := by injection h
  exact absurd this (by decide)

/-- C2, amended.  `verify` consumes replies in configured server-list
order (the `for await` loop iterates the promise array in order), so for
any completion schedule the outcome is decided by the first OK-status
reply in list position order: it is returned if it validates and its
validation error aborts the run otherwise. -/
theorem verify_list_order_decides (nonce secret otp : Str)
    (pre rest : List (Option Response)) (r : Response)
    (hpre : ∀ x ∈ pre, x = none ∨ ∃ q, x = some q ∧ q.status ≠ some "OK".data)
    (hr : r.status = some "OK".data) :
    verifyOutcome nonce secret otp (pre ++ some r :: rest) =
      match validate r nonce secret otp with
      | Except.error e => Except.error e
      | Except.ok _ => Except.ok r :=
  processResponses_firstOk nonce secret otp pre [] rest r hpre hr

/-- Witness for the amended C2: the list-first trusted success `recA`
wins even with a non-OK reply and an empty reply before it and another
trusted success after it. -/
theorem verify_list_order_decides_witness :
    verifyOutcome "n".data [] "o".data [none, some recBadOtp, some recA, some recB] =
      Except.ok recA := by
  have h := verify_list_order_decides "n".data [] "o".data [none, some recBadOtp]
    [some recB] recA
    (by
      intro x hx
      rcases hx with _ | ⟨_, hx⟩
      · exact Or.inl rfl
      · rcases hx with _ | ⟨_, hx⟩
        · exact Or.inr ⟨recBadOtp, rfl, by decide⟩
        · cases hx)
    rfl
  rw [show validate recA "n".data [] "o".data = Except.ok () from by decide] at h
  exact h

/-! ## C3: a validation failure of an OK-status reply aborts everything -/

/-- C3.  If the processing loop reaches an OK-status reply whose
validation fails, `verify` aborts at once with exactly that validation
error: the replies after it are never examined (they are universally
quantified here, and may even contain a perfectly trusted success), and
the error is surfaced unchanged rather than replaced by any status-based
or network error. -/
theorem verify_trust_abort (nonce secret otp : Str)
    (pre rest : List (Option Response)) (r : Response) (e : Str)
    (hpre : ∀ x ∈ pre, x = none ∨ ∃ q, x = some q ∧ q.status ≠ some "OK".data)
    (hr : r.status = some "OK".data)
    (hv : validate r nonce secret otp = Except.error e) :
    verifyOutcome nonce secret otp (pre ++ some r :: rest) = Except.error e := by
  have h := processResponses_firstOk nonce secret otp pre [] rest r hpre hr
  unfold verifyOutcome
  rw [h, hv]

/-- Witness for C3: the OK record with a wrong nonce aborts the run with
the nonce trust error even though a fully trusted success is waiting
right after it in the list. -/
theorem verify_trust_abort_witness :
    verifyOutcome "n".data [] "o".data [some recBadOtp, some recNonce, some recA] =
      Except.error "Nonces do not equal".data :=
  verify_trust_abort "n".data [] "o".data [some recBadOtp] [some recA] recNonce
    "Nonces do not equal".data
    (by
      intro x hx
      rcases hx with _ | ⟨_, hx⟩
      · exact Or.inr ⟨recBadOtp, rfl, by decide⟩
      · cases hx)
    rfl
    (by decide)

/-! ## C4: fallback when no reply has status OK -/

/-- Counterexample to C4 as stated.  In the run
`[some recBadOtp, some recNonce]` no OK-status reply validates
successfully (the only OK reply, `recNonce`, fails its nonce check) and a
non-OK reply was observed first, yet `verify` does not fail with that
candidate's status-mapped error: it fails with the nonce trust error. -/
theorem verify_status_fallback_false :
    recBadOtp.status ≠ some "OK".data ∧
      recNonce.status = some "OK".data ∧
      validate recNonce "n".data [] "o".data ≠ Except.ok () ∧
      verifyOutcome "n".data [] "o".data [some recBadOtp, some recNonce] =
        Except.error "Nonces do not equal".data ∧
      verifyOutcome "n".data [] "o".data [some recBadOtp, some recNonce] ≠
        Except.error (nonOkErrorMsg recBadOtp.status) := by
  refine ⟨by decide, rfl, by decide, by decide, by decide⟩

/-- C4, amended.  When no reply has status OK at all, the loop runs to
completion; then (a) if every reply was empty the outcome is the generic
network error, and (b) if some parsed non-OK reply was observed, the
first such candidate in processing order is validated and its
status-mapped error is surfaced.  (When an OK-status reply exists but
fails validation, C3 applies instead: the trust error aborts the run.) -/
theorem verify_no_ok_fallback (nonce secret otp : Str)
    (replies : List (Option Response))
    (hall : ∀ x ∈ replies, x = none ∨ ∃ q, x = some q ∧ q.status ≠ some "OK".data) :
    ((∀ x ∈ replies, x = none) →
      verifyOutcome nonce secret otp replies =
        Except.error "Yubico API server network error".data) ∧
    (∀ (pre : List (Option Response)) (q : Response) (rest : List (Option Response)),
      replies = pre ++ some q :: rest → (∀ x ∈ pre, x = none) →
      verifyOutcome nonce secret otp replies =
        Except.error (nonOkErrorMsg q.status)) := by
  have hmain := processResponses_allNonOk nonce secret otp replies []
    hall (by intro f hf; cases hf)
  constructor
  · intro hnone
    unfold verifyOutcome
    rw [hmain]
    have : replies.filterMap id = [] := by
      rw [List.filterMap_eq_nil_iff]
      intro a ha
      rw [hnone a ha]
      rfl
    rw [List.nil_append, this]
  · intro pre q rest hshape hprenone
    unfold verifyOutcome
    rw [hmain]
    have hpre : pre.filterMap id = [] := by
      rw [List.filterMap_eq_nil_iff]
      intro a ha
      rw [hprenone a ha]
      rfl
    rw [List.nil_append, hshape, List.filterMap_append, hpre, List.nil_append]
    simp [List.filterMap_cons]

/-- Witness for the amended C4: one run with an observed non-OK candidate
surfacing its status-mapped error, and one run with no parsed reply at
all surfacing the generic network error. -/
theorem verify_no_ok_fallback_witness :
    verifyOutcome "n".data [] "o".data [none, some recBadOtp] =
        Except.error "The OTP is invalid format".data ∧
      verifyOutcome "n".data [] "o".data [none, none] =
        Except.error "Yubico API server network error".data := by
  constructor
  · have h := (verify_no_ok_fallback "n".data [] "o".data [none, some recBadOtp]
      (by
        intro x hx
        rcases hx with _ | ⟨_, hx⟩
        · exact Or.inl rfl
        · rcases hx with _ | ⟨_, hx⟩
          · exact Or.inr ⟨recBadOtp, rfl, by decide⟩
          · cases hx)).2
      [none] recBadOtp [] rfl
      (by
        intro x hx
        rcases hx with _ | ⟨_, hx⟩
        · rfl
        · cases hx)
    rw [h]
    rfl
  · have h := (verify_no_ok_fallback "n".data [] "o".data [none, none]
      (by
        intro x hx
        rcases hx with _ | ⟨_, hx⟩
        · exact Or.inl rfl
        · rcases hx with _ | ⟨_, hx⟩
          · exact Or.inl rfl
          · cases hx)).1
      (by
        intro x hx
        rcases hx with _ | ⟨_, hx⟩
        · rfl
        · rcases hx with _ | ⟨_, hx⟩
          · rfl
          · cases hx)
    exact h

/-! ## C10: validate never modifies the record -/

/-- C10.  `validate` leaves the record untouched: with the record state
threaded explicitly, every field reads back unchanged whether the call
returns normally or throws, the produced result is exactly the one of
`validate`, and re-validating the resulting record any number of times
keeps the record fixed. -/
theorem validate_preserves_record (r : Response) (nonce secret otp : Str) :
    (validateS r nonce secret otp).2.otp = r.otp ∧
    (validateS r nonce secret otp).2.nonce = r.nonce ∧
    (validateS r nonce secret otp).2.h = r.h ∧
    (validateS r nonce secret otp).2.t = r.t ∧
    (validateS r nonce secret otp).2.status = r.status ∧
    (validateS r nonce secret otp).2.timestamp = r.timestamp ∧
    (validateS r nonce secret otp).2.sessioncounter = r.sessioncounter ∧
    (validateS r nonce secret otp).2.sessionuse = r.sessionuse ∧
    (validateS r nonce secret otp).2.sl = r.sl ∧
    (validateS r nonce secret otp).1 = validate r nonce secret otp ∧
    (validateS (validateS r nonce secret otp).2 nonce secret otp).2 = r := by
  have hsnd : (validateS r nonce secret otp).2 = r := by
    by_cases h1 : r.status ≠ some "OK".data <;>
      by_cases h2 : r.nonce ≠ some nonce <;>
        by_cases h3 : r.h ≠ some (base64Encode (hmacSha1 (base64Decode secret)
          (utf8Encode (canonicalBody r)))) <;>
          by_cases h4 : r.otp ≠ some otp <;>
            simp [validateS, h1, h2, h3, h4]
  have hfst : (validateS r nonce secret otp).1 = validate r nonce secret otp := by
    by_cases h1 : r.status ≠ some "OK".data <;>
      by_cases h2 : r.nonce ≠ some nonce <;>
        by_cases h3 : r.h ≠ some (base64Encode (hmacSha1 (base64Decode secret)
          (utf8Encode (canonicalBody r)))) <;>
          by_cases h4 : r.otp ≠ some otp <;>
            simp [validateS, validate, h1, h2, h3, h4]
  rw [hsnd, hfst]
  exact ⟨rfl, rfl, rfl, rfl, rfl, rfl, rfl, rfl, rfl, rfl, hsnd⟩

/-! ## Two-step list induction (for functions consuming pairs of elements) -/

theorem twoStepInduction {α : Type} {P : List α → Prop} (h0 : P [])
    (h1 : ∀ a, P [a])
    (h2 : ∀ a b t, P t → P (b :: t) → P (a :: b :: t)) :
    ∀ l, P l := by
  have key : ∀ (n : Nat) (l : List α), l.length ≤ n → P l := by
    intro n
    induction n with
    | zero =>
      intro l hl
      have hnil : l = [] := List.length_eq_zero.mp (Nat.le_zero.mp hl)
      subst hnil
      exact h0
    | succ n ih =>
      intro l hl
      match l with
      | [] => exact h0
      | [a] => exact h1 a
      | a :: b :: t =>
        simp only [List.length_cons] at hl
        exact h2 a b t (ih t (by omega)) (ih (b :: t) (by simp only [List.length_cons]; omega))
  intro l
  exact key l.length l le_rfl

/-! ## C5/C6 groundwork: modhex decoding -/

theorem filterMap_length_lt {α β : Type} (f : α → Option β) :
    ∀ (l : List α) (a : α), a ∈ l → f a = none → (l.filterMap f).length < l.length := by
  intro l
  induction l with
  | nil => intro a ha; cases ha
  | cons x t ih =>
    intro a ha hfa
    rcases List.mem_cons.mp ha with rfl | ha
    · rw [List.filterMap_cons, hfa]
      simpa using Nat.lt_succ_of_le (List.length_filterMap_le f t)
    · rw [List.filterMap_cons]
      cases hfx : f x
      · simpa using Nat.lt_succ_of_lt (ih a ha hfa)
      · simpa using Nat.succ_lt_succ (ih a ha hfa)

theorem hexPairs_length_le : ∀ s : Str, 2 * (hexPairsToBytes s).length ≤ s.length := by
  intro s
  induction s using twoStepInduction with
  | h0 => simp [hexPairsToBytes]
  | h1 a => simp [hexPairsToBytes]
  | h2 a b t iht ihbt =>
    cases h1 : hexVal a <;> cases h2 : hexVal b <;>
      simp only [hexPairsToBytes, h1, h2, List.length_cons, List.length_nil] <;>
      omega

/-- A character equal to none of the sixteen modhex symbols is not in the
substitution table. -/
theorem modHexConversion_eq_none (c : Char) (hn1 : c ≠ 'b') (hn2 : c ≠ 'c') (hn3 : c ≠ 'd') (hn4 : c ≠ 'e') (hn5 : c ≠ 'f') (hn6 : c ≠ 'g') (hn7 : c ≠ 'h') (hn8 : c ≠ 'i') (hn9 : c ≠ 'j') (hn10 : c ≠ 'k') (hn11 : c ≠ 'l') (hn12 : c ≠ 'n') (hn13 : c ≠ 'r') (hn14 : c ≠ 't') (hn15 : c ≠ 'u') (hn16 : c ≠ 'v') :
    modHexConversion c = none := by
  unfold modHexConversion
  rw [if_neg hn1, if_neg hn2, if_neg hn3, if_neg hn4, if_neg hn5, if_neg hn6, if_neg hn7, if_neg hn8, if_neg hn9, if_neg hn10, if_neg hn11, if_neg hn12, if_neg hn13, if_neg hn14, if_neg hn15, if_neg hn16]

/-- Each modhex symbol maps to a hex digit whose value is the canonical
nibble of the symbol. -/
theorem modhex_nibble_eq (c d : Char) (h : modHexConversion c = some d) :
    ∃ n, hexVal d = some n ∧ modHexNibble c = some n := by
  by_cases h1 : c = 'b'
  · subst h1
    rw [show modHexConversion 'b' = some '1' from by decide] at h
    cases h
    exact ⟨1, by decide, by decide⟩
  by_cases h2 : c = 'c'
  · subst h2
    rw [show modHexConversion 'c' = some '0' from by decide] at h
    cases h
    exact ⟨0, by decide, by decide⟩
  by_cases h3 : c = 'd'
  · subst h3
    rw [show modHexConversion 'd' = some '2' from by decide] at h
    cases h
    exact ⟨2, by decide, by decide⟩
  by_cases h4 : c = 'e'
  · subst h4
    rw [show modHexConversion 'e' = some '3' from by decide] at h
    cases h
    exact ⟨3, by decide, by decide⟩
  by_cases h5 : c = 'f'
  · subst h5
    rw [show modHexConversion 'f' = some '4' from by decide] at h
    cases h
    exact ⟨4, by decide, by decide⟩
  by_cases h6 : c = 'g'
  · subst h6
    rw [show modHexConversion 'g' = some '5' from by decide] at h
    cases h
    exact ⟨5, by decide, by decide⟩
  by_cases h7 : c = 'h'
  · subst h7
    rw [show modHexConversion 'h' = some '6' from by decide] at h
    cases h
    exact ⟨6, by decide, by decide⟩
  by_cases h8 : c = 'i'
  · subst h8
    rw [show modHexConversion 'i' = some '7' from by decide] at h
    cases h
    exact ⟨7, by decide, by decide⟩
  by_cases h9 : c = 'j'
  · subst h9
    rw [show modHexConversion 'j' = some '8' from by decide] at h
    cases h
    exact ⟨8, by decide, by decide⟩
  by_cases h10 : c = 'k'
  · subst h10
    rw [show modHexConversion 'k' = some '9' from by decide] at h
    cases h
    exact ⟨9, by decide, by decide⟩
  by_cases h11 : c = 'l'
  · subst h11
    rw [show modHexConversion 'l' = some 'A' from by decide] at h
    cases h
    exact ⟨10, by decide, by decide⟩
  by_cases h12 : c = 'n'
  · subst h12
    rw [show modHexConversion 'n' = some 'B' from by decide] at h
    cases h
    exact ⟨11, by decide, by decide⟩
  by_cases h13 : c = 'r'
  · subst h13
    rw [show modHexConversion 'r' = some 'C' from by decide] at h
    cases h
    exact ⟨12, by decide, by decide⟩
  by_cases h14 : c = 't'
  · subst h14
    rw [show modHexConversion 't' = some 'D' from by decide] at h
    cases h
    exact ⟨13, by decide, by decide⟩
  by_cases h15 : c = 'u'
  · subst h15
    rw [show modHexConversion 'u' = some 'E' from by decide] at h
    cases h
    exact ⟨14, by decide, by decide⟩
  by_cases h16 : c = 'v'
  · subst h16
    rw [show modHexConversion 'v' = some 'F' from by decide] at h
    cases h
    exact ⟨15, by decide, by decide⟩
  rw [modHexConversion_eq_none c h1 h2 h3 h4 h5 h6 h7 h8 h9 h10 h11 h12 h13 h14 h15 h16] at h
  cases h

theorem filterMap_length_all_some {α β : Type} (f : α → Option β) :
    ∀ l : List α, (∀ a ∈ l, (f a).isSome) → (l.filterMap f).length = l.length := by
  intro l
  induction l with
  | nil => intro _; rfl
  | cons x t ih =>
    intro hall
    obtain ⟨b, hb⟩ := Option.isSome_iff_exists.mp (hall x (List.mem_cons_self x t))
    rw [List.filterMap_cons, hb]
    simp only [List.length_cons]
    rw [ih (fun a ha => hall a (List.mem_cons_of_mem _ ha))]

theorem hexPairs_length_exact :
    ∀ cs : Str, (∀ c ∈ cs, (hexVal c).isSome) → cs.length % 2 = 0 →
      2 * (hexPairsToBytes cs).length = cs.length := by
  intro cs
  induction cs using twoStepInduction with
  | h0 => intro _ _; rfl
  | h1 a => intro _ hlen; simp at hlen
  | h2 a b t iht _ =>
    intro hv hlen
    obtain ⟨x, hx⟩ := Option.isSome_iff_exists.mp (hv a (List.mem_cons_self a _))
    obtain ⟨y, hy⟩ := Option.isSome_iff_exists.mp
      (hv b (List.mem_cons_of_mem _ (List.mem_cons_self b t)))
    simp only [List.length_cons] at hlen
    have ht := iht (fun c hc => hv c (List.mem_cons_of_mem _ (List.mem_cons_of_mem _ hc)))
      (by omega)
    simp only [hexPairsToBytes, hx, hy, List.length_cons]
    omega

theorem hexPairs_foldl :
    ∀ cs : Str, (∀ c ∈ cs, (hexVal c).isSome) → cs.length % 2 = 0 →
      ∀ acc : Nat,
        (hexPairsToBytes cs).foldl (fun acc b => acc * 256 + b) acc =
          (cs.filterMap hexVal).foldl (fun a n => 16 * a + n) acc := by
  intro cs
  induction cs using twoStepInduction with
  | h0 => intro _ _ _; rfl
  | h1 a => intro _ hlen; simp at hlen
  | h2 a b t iht _ =>
    intro hv hlen acc
    obtain ⟨x, hx⟩ := Option.isSome_iff_exists.mp (hv a (List.mem_cons_self a _))
    obtain ⟨y, hy⟩ := Option.isSome_iff_exists.mp
      (hv b (List.mem_cons_of_mem _ (List.mem_cons_self b t)))
    simp only [List.length_cons] at hlen
    have ht := iht (fun c hc => hv c (List.mem_cons_of_mem _ (List.mem_cons_of_mem _ hc)))
      (by omega) (acc * 256 + (16 * x + y))
    simp only [hexPairsToBytes, hx, hy, List.filterMap_cons, List.foldl_cons]
    have harith : 16 * (16 * acc + x) + y = acc * 256 + (16 * x + y) := by ring
    rw [harith]
    exact ht

theorem filterMap_modhex_nibble :
    ∀ l : Str, (∀ c ∈ l, (modHexConversion c).isSome) →
      (l.filterMap modHexConversion).filterMap hexVal = l.filterMap modHexNibble := by
  intro l
  induction l with
  | nil => intro _; rfl
  | cons c t ih =>
    intro hall
    obtain ⟨d, hd⟩ := Option.isSome_iff_exists.mp (hall c (List.mem_cons_self c t))
    obtain ⟨n, hvd, hnib⟩ := modhex_nibble_eq c d hd
    rw [List.filterMap_cons, hd, List.filterMap_cons, hvd, List.filterMap_cons, hnib,
      ih (fun a ha => hall a (List.mem_cons_of_mem _ ha))]

theorem readUIntBE_full (bytes : List Nat) (h : bytes.length = 6) :
    readUIntBE bytes 0 6 = some (bytes.foldl (fun acc b => acc * 256 + b) 0) := by
  unfold readUIntBE
  rw [if_pos (by omega), List.drop_zero, List.take_of_length_le (le_of_eq h)]

/-- `getSerialNumber` on a record with a defined OTP, reduced to the
buffer read over the converted public id. -/
theorem getSerialNumber_some (r : Response) (otp : Str) (hotp : r.otp = some otp) :
    getSerialNumber r =
      match readUIntBE (hexPairsToBytes ((otp.take 12).filterMap modHexConversion)) 0 6 with
      | some n => Except.ok n
      | none => Except.error SerialFailure.rangeError := by
  unfold getSerialNumber getPublicId
  rw [hotp]
  rfl

theorem hex_digits_valid :
    ∀ l : Str, (∀ c ∈ l, (modHexConversion c).isSome) →
      ∀ x ∈ l.filterMap modHexConversion, (hexVal x).isSome := by
  intro l hall x hx
  obtain ⟨c, hc, hcd⟩ := List.mem_filterMap.mp hx
  obtain ⟨n, hvd, _⟩ := modhex_nibble_eq c x hcd
  rw [hvd]
  rfl

/-! ## C5: an invalid modhex character makes getSerialNumber fail -/

/-- Counterexample to C5 as stated.  On an OTP whose first 12 characters
contain a symbol outside the modhex alphabet, `getSerialNumber` does fail,
but with the out-of-range error of the 6-byte buffer read (Node's
`ERR_OUT_OF_RANGE` `RangeError`), not with a `MalformedResponseError`:
no such error exists anywhere in the source. -/
theorem serial_malformed_error_false :
    getSerialNumber recInvalidOtp = Except.error SerialFailure.rangeError ∧
      (Except.error SerialFailure.rangeError : Except SerialFailure Nat) ≠
        Except.error SerialFailure.malformedResponse := by
  refine ⟨by decide, by decide⟩

/-- C5, amended.  For every OTP of length at least 12 whose first 12
characters include a character outside the modhex alphabet,
`getSerialNumber` fails with the range error of the out-of-bounds buffer
read (the invalid character is dropped by `join`, leaving at most 11 hex
digits, hence at most 5 bytes, so the 6-byte read throws); it never
silently returns zero or a value computed from the valid characters
only. -/
theorem serial_invalid_modhex_range_error (r : Response) (otp : Str)
    (hotp : r.otp = some otp) (hlen : 12 ≤ otp.length)
    (hbad : ∃ c ∈ otp.take 12, modHexConversion c = none) :
    getSerialNumber r = Except.error SerialFailure.rangeError := by
  obtain ⟨c, hc, hcnone⟩ := hbad
  have h12 : (otp.take 12).length = 12 := by
    rw [List.length_take]
    omega
  have hflt := filterMap_length_lt modHexConversion (otp.take 12) c hc hcnone
  have hble := hexPairs_length_le ((otp.take 12).filterMap modHexConversion)
  have hnone : readUIntBE
      (hexPairsToBytes ((otp.take 12).filterMap modHexConversion)) 0 6 = none := by
    unfold readUIntBE
    rw [if_neg (by omega)]
  rw [getSerialNumber_some r otp hotp, hnone]

/-- Witness for the amended C5. -/
theorem serial_invalid_modhex_range_error_witness :
    getSerialNumber recInvalidOtp = Except.error SerialFailure.rangeError :=
  serial_invalid_modhex_range_error recInvalidOtp "cccccccccccx".data rfl (by decide)
    ⟨'x', by decide, by decide⟩

/-! ## C6: getSerialNumber decodes the public id through the canonical
modhex table -/

/-- C6.  For every OTP whose first 12 characters are all modhex symbols,
`getSerialNumber` returns exactly the 48-bit big-endian integer obtained
by mapping each of the 12 symbols to its nibble through the canonical
substitution table and concatenating the nibbles. -/
theorem serial_modhex_decode (r : Response) (otp : Str)
    (hotp : r.otp = some otp) (hlen : 12 ≤ otp.length)
    (hvalid : ∀ c ∈ otp.take 12, (modHexConversion c).isSome) :
    getSerialNumber r =
      Except.ok (((otp.take 12).filterMap modHexNibble).foldl
        (fun a n => 16 * a + n) 0) := by
  have h12 : (otp.take 12).length = 12 := by
    rw [List.length_take]
    omega
  have hhex := hex_digits_valid (otp.take 12) hvalid
  have hlenH : ((otp.take 12).filterMap modHexConversion).length = 12 := by
    rw [filterMap_length_all_some modHexConversion (otp.take 12) hvalid, h12]
  have hbytes : (hexPairsToBytes ((otp.take 12).filterMap modHexConversion)).length = 6 := by
    have := hexPairs_length_exact ((otp.take 12).filterMap modHexConversion) hhex
      (by omega)
    omega
  rw [getSerialNumber_some r otp hotp, readUIntBE_full _ hbytes,
    hexPairs_foldl _ hhex (by omega) 0, filterMap_modhex_nibble _ hvalid]

/-- Witness for C6 at the two vectors of the specification: the all-`c`
vector decodes to 0 and a vector of twelve distinct modhex symbols
decodes to its precomputed 48-bit value. -/
theorem serial_modhex_decode_witness :
    getSerialNumber recZeroOtp = Except.ok 0 ∧
      getSerialNumber recDistinctOtp = Except.ok 1250999896491 := by
  constructor
  · have h := serial_modhex_decode recZeroOtp "cccccccccccc".data rfl (by decide) (by decide)
    rw [h]
    decide
  · have h := serial_modhex_decode recDistinctOtp "cbdefghijkln".data rfl (by decide)
      (by decide)
    rw [h]
    decide

/-! ## C7/C9 groundwork: the parsing pipeline on well-formed bodies -/

theorem splitOnChar_ne_nil (c : Char) : ∀ s : Str, splitOnChar c s ≠ [] := by
  intro s
  induction s with
  | nil => simp [splitOnChar]
  | cons a rest ih =>
    simp only [splitOnChar]
    cases hrec : splitOnChar c rest with
    | nil => exact absurd hrec ih
    | cons s ss => split_ifs <;> simp

theorem splitOnChar_no_sep (c : Char) : ∀ s : Str, c ∉ s → splitOnChar c s = [s] := by
  intro s
  induction s with
  | nil => intro _; rfl
  | cons a rest ih =>
    intro hn
    have ha : ¬ a = c := fun h => hn (h ▸ List.mem_cons_self a rest)
    have hrest : c ∉ rest := fun h => hn (List.mem_cons_of_mem a h)
    simp only [splitOnChar, ih hrest]
    rw [if_neg (by simpa using ha)]

theorem splitOnChar_append_sep (c : Char) :
    ∀ (s rest : Str), c ∉ s →
      splitOnChar c (s ++ c :: rest) = s :: splitOnChar c rest := by
  intro s
  induction s with
  | nil =>
    intro rest _
    simp only [List.nil_append, splitOnChar]
    cases hrec : splitOnChar c rest with
    | nil => exact absurd hrec (splitOnChar_ne_nil c rest)
    | cons s ss => simp
  | cons a s' ih =>
    intro rest hn
    have ha : ¬ a = c := fun h => hn (h ▸ List.mem_cons_self a s')
    have hs' : c ∉ s' := fun h => hn (List.mem_cons_of_mem a h)
    simp only [List.cons_append, splitOnChar, List.append_eq]
    rw [ih rest hs']
    simp [ha]

theorem splitOnChar_intercalate (c : Char) :
    ∀ ls : List Str, ls ≠ [] → (∀ s ∈ ls, c ∉ s) →
      splitOnChar c (intercalateChar c ls) = ls := by
  intro ls
  induction ls with
  | nil => intro h; exact absurd rfl h
  | cons s ls' ih =>
    intro _ hmem
    cases ls' with
    | nil => exact splitOnChar_no_sep c s (hmem s (List.mem_cons_self s []))
    | cons l' t =>
      have hstep : intercalateChar c (s :: l' :: t) = s ++ c :: intercalateChar c (l' :: t) :=
        rfl
      rw [hstep, splitOnChar_append_sep c s _ (hmem s (List.mem_cons_self s _)),
        ih (by simp) (fun x hx => hmem x (List.mem_cons_of_mem s hx))]

theorem intercalate_snoc_nil (c : Char) :
    ∀ xs : List Str, xs ≠ [] →
      intercalateChar c (xs ++ [[]]) = intercalateChar c xs ++ [c] := by
  intro xs
  induction xs with
  | nil => intro h; exact absurd rfl h
  | cons x xs' ih =>
    intro _
    cases xs' with
    | nil => rfl
    | cons y t =>
      have h1 : intercalateChar c ((x :: y :: t) ++ [[]]) =
          x ++ c :: intercalateChar c ((y :: t) ++ [[]]) := rfl
      have h2 : intercalateChar c (x :: y :: t) = x ++ c :: intercalateChar c (y :: t) := rfl
      rw [h1, h2, ih (by simp)]
      simp

theorem mem_intercalateChar (c : Char) :
    ∀ (ls : List Str) (x : Char), x ∈ intercalateChar c ls →
      x = c ∨ ∃ s ∈ ls, x ∈ s := by
  intro ls
  induction ls with
  | nil => intro x hx; cases hx
  | cons s ls' ih =>
    intro x hx
    cases ls' with
    | nil => exact Or.inr ⟨s, List.mem_cons_self s [], hx⟩
    | cons l' t =>
      rw [show intercalateChar c (s :: l' :: t) = s ++ c :: intercalateChar c (l' :: t)
        from rfl] at hx
      rcases List.mem_append.mp hx with hx | hx
      · exact Or.inr ⟨s, List.mem_cons_self s _, hx⟩
      · rcases List.mem_cons.mp hx with hx | hx
        · exact Or.inl hx
        · rcases ih x hx with hx | ⟨s', hs', hx⟩
          · exact Or.inl hx
          · exact Or.inr ⟨s', List.mem_cons_of_mem s hs', hx⟩

theorem replaceCRLF_id : ∀ s : Str, '\r' ∉ s → replaceCRLF s = s := by
  intro s
  induction s using twoStepInduction with
  | h0 => intro _; rfl
  | h1 a => intro _; rfl
  | h2 a b t _ ihbt =>
    intro hn
    have ha : ¬ a = '\r' := fun h => hn (h ▸ List.mem_cons_self a (b :: t))
    have hbt : '\r' ∉ b :: t := fun h => hn (List.mem_cons_of_mem a h)
    simp only [replaceCRLF]
    rw [if_neg (by simp [ha]), ihbt hbt]

theorem splitFirstEq_append :
    ∀ k v : Str, '=' ∉ k → v ≠ [] → splitFirstEq (k ++ '=' :: v) = (k, some v) := by
  intro k
  induction k with
  | nil =>
    intro v _ hv
    simp only [List.nil_append, splitFirstEq]
    simp [hv]
  | cons a k' ih =>
    intro v hn hv
    have ha : ¬ a = '=' := fun h => hn (h ▸ List.mem_cons_self a k')
    have hk' : '=' ∉ k' := fun h => hn (List.mem_cons_of_mem a h)
    simp only [List.cons_append, splitFirstEq, List.append_eq]
    rw [if_neg (by simp [ha]), ih v hk' hv]

theorem liftPairs_keys_sub (L : List (Str × Option Str)) (k : Str) (w : Option Str)
    (h : (k, w) ∈ liftPairs L) : k ∈ L.map Prod.fst := by
  unfold liftPairs at h
  obtain ⟨p, hp, hpe⟩ := List.mem_map.mp h
  obtain ⟨q, hq, hqe⟩ := List.mem_filterMap.mp hp
  obtain ⟨v, _, hve⟩ := Option.map_eq_some'.mp hqe
  subst hve
  injection hpe with h1 _
  exact List.mem_map.mpr ⟨q, hq, h1⟩

theorem filter_liftPairs_nil (t : List (Str × Option Str)) (k : Str)
    (hk : k ∉ t.map Prod.fst) :
    (liftPairs t).filter (fun p => p.1 = k) = [] := by
  rw [List.filter_eq_nil_iff]
  intro p hp
  simp only [decide_eq_true_eq]
  intro he
  exact hk (he ▸ liftPairs_keys_sub t p.1 p.2 (Prod.mk.eta ▸ hp))

theorem lookupLast_liftPairs_not_mem (t : List (Str × Option Str)) (k : Str)
    (hk : k ∉ t.map Prod.fst) : lookupLast (liftPairs t) k = none := by
  unfold lookupLast
  rw [filter_liftPairs_nil t k hk]
  rfl

theorem lookupLast_cons_of_ne (ps : List (Str × Option Str)) (p : Str × Option Str)
    (k : Str) (h : ¬ p.1 = k) : lookupLast (p :: ps) k = lookupLast ps k := by
  unfold lookupLast
  rw [List.filter_cons, if_neg (by simpa using h)]

/-- On the parsed pairs of a well-formed encoding of a template with
distinct keys, looking a key up yields exactly the template's value for
that key (`none` for an undefined field). -/
theorem lookupLast_liftPairs (L : List (Str × Option Str)) (k : Str) (v : Option Str)
    (hnd : (L.map Prod.fst).Nodup) (hmem : (k, v) ∈ L) :
    lookupLast (liftPairs L) k = v := by
  induction L with
  | nil => cases hmem
  | cons q t ih =>
    rw [List.map_cons] at hnd
    have hndt : (t.map Prod.fst).Nodup := hnd.of_cons
    have hq1 : q.1 ∉ t.map Prod.fst := (List.nodup_cons.mp hnd).1
    by_cases hk : q.1 = k
    · have hv : q = (k, v) := by
        rcases List.mem_cons.mp hmem with h | h
        · exact h.symm
        · exfalso
          have hkmem : k ∈ t.map Prod.fst := List.mem_map.mpr ⟨(k, v), h, rfl⟩
          exact hq1 (hk ▸ hkmem)
      subst hv
      cases v with
      | none =>
        have hlift : liftPairs ((k, none) :: t) = liftPairs t := by
          unfold liftPairs
          simp [List.filterMap_cons]
        rw [hlift]
        exact lookupLast_liftPairs_not_mem t k (by simpa using hq1)
      | some w =>
        have hlift : liftPairs ((k, some w) :: t) = (k, some w) :: liftPairs t := by
          unfold liftPairs
          simp [List.filterMap_cons]
        rw [hlift]
        unfold lookupLast
        rw [List.filter_cons, if_pos (by simp), filter_liftPairs_nil t k (by simpa using hq1)]
        rfl
    · have hmem' : (k, v) ∈ t := by
        rcases List.mem_cons.mp hmem with h | h
        · exact absurd (by rw [← h]) hk
        · exact h
      cases hq2 : q.2 with
      | none =>
        have hlift : liftPairs (q :: t) = liftPairs t := by
          unfold liftPairs
          simp [List.filterMap_cons, hq2]
        rw [hlift]
        exact ih hndt hmem'
      | some w =>
        have hlift : liftPairs (q :: t) = (q.1, some w) :: liftPairs t := by
          unfold liftPairs
          simp [List.filterMap_cons, hq2]
        rw [hlift, lookupLast_cons_of_ne (liftPairs t) (q.1, some w) k hk]
        exact ih hndt hmem'

/-- The nine field keys contain no `=` and no line-break characters. -/
theorem mem_fieldTemplate_key (r : Response) (k : Str) (w : Option Str)
    (h : (k, w) ∈ fieldTemplate r) : '=' ∉ k ∧ '\n' ∉ k ∧ '\r' ∉ k := by
  simp only [fieldTemplate, List.mem_cons, List.not_mem_nil, or_false] at h
  rcases h with h|h|h|h|h|h|h|h|h <;>
    (injection h with h1 _; subst h1; exact (by decide))

/-- A defined value of a well-formed record is well-formed. -/
theorem template_value_wf (r : Response) (hwf : wellFormed r) (k : Str) (v : Str)
    (h : (k, some v) ∈ fieldTemplate r) : wfValue v := by
  obtain ⟨h1, h2, h3, h4, h5, h6, h7, h8, h9⟩ := hwf
  simp only [fieldTemplate, List.mem_cons, List.not_mem_nil, or_false] at h
  rcases h with h|h|h|h|h|h|h|h|h
  · injection h with _ hv; rw [← hv] at h1; exact h1
  · injection h with _ hv; rw [← hv] at h2; exact h2
  · injection h with _ hv; rw [← hv] at h3; exact h3
  · injection h with _ hv; rw [← hv] at h4; exact h4
  · injection h with _ hv; rw [← hv] at h5; exact h5
  · injection h with _ hv; rw [← hv] at h6; exact h6
  · injection h with _ hv; rw [← hv] at h7; exact h7
  · injection h with _ hv; rw [← hv] at h8; exact h8
  · injection h with _ hv; rw [← hv] at h9; exact h9

/-- Every encoded line of a well-formed record is free of line breaks, its
key is free of `=`, and its value is non-empty. -/
theorem definedPairs_line_wf (r : Response) (hwf : wellFormed r) :
    ∀ p ∈ definedPairs r,
      '\n' ∉ lineOf p ∧ '\r' ∉ lineOf p ∧ '=' ∉ p.1 ∧ p.2 ≠ [] := by
  intro p hp
  unfold definedPairs at hp
  obtain ⟨q, hq, hqe⟩ := List.mem_filterMap.mp hp
  obtain ⟨v, hv, hve⟩ := Option.map_eq_some'.mp hqe
  subst hve
  have hqmem : (q.1, some v) ∈ fieldTemplate r := by
    rw [← hv]
    exact Prod.mk.eta.symm ▸ hq
  obtain ⟨hk1, hk2, hk3⟩ := mem_fieldTemplate_key r q.1 (some v) hqmem
  obtain ⟨hv1, hv2, hv3⟩ := template_value_wf r hwf q.1 v hqmem
  refine ⟨?_, ?_, hk1, hv1⟩
  · unfold lineOf
    intro hmem
    rcases List.mem_append.mp hmem with h | h
    · exact hk2 h
    · rcases List.mem_cons.mp h with h | h
      · exact absurd h (by decide)
      · exact hv2 h
  · unfold lineOf
    intro hmem
    rcases List.mem_append.mp hmem with h | h
    · exact hk3 h
    · rcases List.mem_cons.mp h with h | h
      · exact absurd h (by decide)
      · exact hv3 h

theorem fieldTemplate_keys_nodup (r : Response) :
    ((fieldTemplate r).map Prod.fst).Nodup := by
  have h : (fieldTemplate r).map Prod.fst =
      ["otp".data, "nonce".data, "h".data, "t".data, "status".data, "timestamp".data,
       "sessioncounter".data, "sessionuse".data, "sl".data] := rfl
  rw [h]
  decide

/-! ## C7: parse is a left inverse of well-formed encoding -/

/-- C7.  Encoding any field map over the recognized key set whose defined
values are non-empty and contain no line breaks, then parsing the result
with `fromRawBody`, restores exactly the original field values — even
values containing `=`, since each line is split only at its first `=`. -/
theorem parse_encode_left_inverse (r : Response) (hwf : wellFormed r) :
    fromRawBody (encodeFields r) = r := by
  have hlines := definedPairs_line_wf r hwf
  have hnr : '\r' ∉ encodeFields r := by
    unfold encodeFields
    intro hmem
    rcases mem_intercalateChar '\n' _ '\r' hmem with h | ⟨s, hs, hmem'⟩
    · exact absurd h (by decide)
    · rcases List.mem_append.mp hs with hs | hs
      · obtain ⟨p, hp, rfl⟩ := List.mem_map.mp hs
        exact (hlines p hp).2.1 hmem'
      · simp only [List.mem_cons, List.not_mem_nil, or_false] at hs
        rcases hs with rfl | rfl <;> cases hmem'
  have hsplit : splitOnChar '\n' (encodeFields r) =
      (definedPairs r).map lineOf ++ [[], []] := by
    unfold encodeFields
    apply splitOnChar_intercalate
    · simp
    · intro s hs
      rcases List.mem_append.mp hs with hs | hs
      · obtain ⟨p, hp, rfl⟩ := List.mem_map.mp hs
        exact (hlines p hp).1
      · simp only [List.mem_cons, List.not_mem_nil, or_false] at hs
        rcases hs with rfl | rfl <;> simp
  have hpairs : bodyPairs (encodeFields r) = liftPairs (fieldTemplate r) := by
    unfold bodyPairs
    rw [replaceCRLF_id _ hnr, hsplit]
    have hlen : ((definedPairs r).map lineOf ++ [[], []]).length - 2 =
        ((definedPairs r).map lineOf).length := by
      simp
    rw [hlen, List.take_left, List.map_map]
    apply List.map_congr_left
    intro p hp
    have h := hlines p hp
    show splitFirstEq (lineOf p) = (p.1, some p.2)
    unfold lineOf
    exact splitFirstEq_append p.1 p.2 h.2.2.1 h.2.2.2
  unfold fromRawBody
  rw [hpairs,
    lookupLast_liftPairs _ _ _ (fieldTemplate_keys_nodup r) (show ("otp".data, r.otp) ∈
      fieldTemplate r from List.mem_cons_self _ _),
    lookupLast_liftPairs _ _ _ (fieldTemplate_keys_nodup r) (show ("nonce".data, r.nonce) ∈
      fieldTemplate r by simp [fieldTemplate]),
    lookupLast_liftPairs _ _ _ (fieldTemplate_keys_nodup r) (show ("h".data, r.h) ∈
      fieldTemplate r by simp [fieldTemplate]),
    lookupLast_liftPairs _ _ _ (fieldTemplate_keys_nodup r) (show ("t".data, r.t) ∈
      fieldTemplate r by simp [fieldTemplate]),
    lookupLast_liftPairs _ _ _ (fieldTemplate_keys_nodup r) (show ("status".data, r.status) ∈
      fieldTemplate r by simp [fieldTemplate]),
    lookupLast_liftPairs _ _ _ (fieldTemplate_keys_nodup r)
      (show ("timestamp".data, r.timestamp) ∈ fieldTemplate r by simp [fieldTemplate]),
    lookupLast_liftPairs _ _ _ (fieldTemplate_keys_nodup r)
      (show ("sessioncounter".data, r.sessioncounter) ∈ fieldTemplate r by
        simp [fieldTemplate]),
    lookupLast_liftPairs _ _ _ (fieldTemplate_keys_nodup r)
      (show ("sessionuse".data, r.sessionuse) ∈ fieldTemplate r by simp [fieldTemplate]),
    lookupLast_liftPairs _ _ _ (fieldTemplate_keys_nodup r) (show ("sl".data, r.sl) ∈
      fieldTemplate r by simp [fieldTemplate])]

/-- Witness for C7 on a concrete record whose `h` value contains `=`
(base64 padding). -/
theorem parse_encode_left_inverse_witness :
    fromRawBody (encodeFields recRoundTrip) = recRoundTrip :=
  parse_encode_left_inverse recRoundTrip (by decide)

/-! ## C9: a body whose final line lacks the trailing blank line loses
that line -/

/-- C9.  `fromRawBody` (a total function, like every operation it is built
from) always discards the last two newline-separated segments after
normalizing CRLF; consequently a body whose final `key=value` line is
followed by a single line break parses exactly like the well-terminated
body without that line, so the final line's field is silently dropped (the
concrete conjuncts show `t` lost from `status=OK\nt=5\n` but kept in
`status=OK\nt=5\n\n`). -/
theorem parse_drops_unterminated_line :
    (∀ (ls : List Str) (line : Str),
        (∀ s ∈ ls, '\n' ∉ s ∧ '\r' ∉ s) → '\n' ∉ line → '\r' ∉ line →
        fromRawBody (intercalateChar '\n' (ls ++ [line]) ++ ['\n']) =
          fromRawBody (intercalateChar '\n' (ls ++ [[], []]))) ∧
      (fromRawBody ("status=OK\nt=5\n".data)).t = none ∧
      (fromRawBody ("status=OK\nt=5\n\n".data)).t = some "5".data := by
  refine ⟨?_, by decide, by decide⟩
  intro ls line hls hn hr
  have hb : intercalateChar '\n' (ls ++ [line]) ++ ['\n'] =
      intercalateChar '\n' (ls ++ [line, []]) := by
    rw [show ls ++ [line, []] = (ls ++ [line]) ++ [[]] by simp,
      intercalate_snoc_nil '\n' (ls ++ [line]) (by simp)]
  rw [hb]
  have hkept : ∀ tail : List Str, tail.length = 2 → (∀ s ∈ tail, '\n' ∉ s ∧ '\r' ∉ s) →
      bodyPairs (intercalateChar '\n' (ls ++ tail)) = ls.map splitFirstEq := by
    intro tail hlen2 htail
    have hmem : ∀ s ∈ ls ++ tail, '\n' ∉ s ∧ '\r' ∉ s := by
      intro s hs
      rcases List.mem_append.mp hs with hs | hs
      · exact hls s hs
      · exact htail s hs
    have hnr : '\r' ∉ intercalateChar '\n' (ls ++ tail) := by
      intro hmem'
      rcases mem_intercalateChar '\n' _ '\r' hmem' with h | ⟨s, hs, hmem''⟩
      · exact absurd h (by decide)
      · exact (hmem s hs).2 hmem''
    unfold bodyPairs
    rw [replaceCRLF_id _ hnr,
      splitOnChar_intercalate '\n' (ls ++ tail) (by
        intro hnil
        have := congrArg List.length hnil
        simp [hlen2] at this)
        (fun s hs => (hmem s hs).1)]
    have hlen : (ls ++ tail).length - 2 = ls.length := by
      simp [hlen2]
    rw [hlen]
    have htake : (ls ++ tail).take ls.length = ls := List.take_left ls tail
    rw [htake]
  have h1 := hkept [line, []] (by simp)
    (by
      intro s hs
      simp only [List.mem_cons, List.not_mem_nil, or_false] at hs
      rcases hs with rfl | rfl
      · exact ⟨hn, hr⟩
      · simp)
  have h2 := hkept [[], []] (by simp)
    (by
      intro s hs
      simp only [List.mem_cons, List.not_mem_nil, or_false] at hs
      rcases hs with rfl | rfl <;> simp)
  unfold fromRawBody
  rw [h1, h2]

/-- Witness for C9: the body with a single trailing newline parses to the
same record as the two-segment-terminated body without its final line. -/
theorem parse_drops_unterminated_line_witness :
    fromRawBody "status=OK\nt=5\n".data = fromRawBody "status=OK\n\n".data := by
  have h := (parse_drops_unterminated_line).1 ["status=OK".data] "t=5".data
    (by decide) (by decide) (by decide)
  have e1 : intercalateChar '\n' (["status=OK".data] ++ ["t=5".data]) ++ ['\n'] =
      "status=OK\nt=5\n".data := by decide
  have e2 : intercalateChar '\n' (["status=OK".data] ++ [[], []]) =
      "status=OK\n\n".data := by decide
  rw [e1, e2] at h
  exact h

/-! ## C8 groundwork: the code-point order and the stable sort -/

theorem strLt_asymm : ∀ a b : Str, strLt a b = true → strLt b a = false := by
  intro a
  induction a with
  | nil =>
    intro b h
    cases b with
    | nil => simp [strLt] at h
    | cons y bs => simp [strLt]
  | cons x as ih =>
    intro b h
    cases b with
    | nil => simp [strLt] at h
    | cons y bs =>
      rcases Nat.lt_trichotomy x.toNat y.toNat with hlt | heq | hgt
      · simp only [strLt]
        rw [if_neg (by omega), if_neg (by omega)]
      · simp only [strLt] at h ⊢
        rw [if_neg (by omega), if_pos (by omega)] at h
        rw [if_neg (by omega), if_pos (by omega)]
        exact ih bs h
      · simp only [strLt] at h
        rw [if_neg (by omega), if_neg (by omega)] at h
        exact absurd h (by simp)

theorem strLt_trans : ∀ a b c : Str, strLt a b = true → strLt b c = true →
    strLt a c = true := by
  intro a
  induction a with
  | nil =>
    intro b c hab hbc
    cases b with
    | nil => simp [strLt] at hab
    | cons y bs =>
      cases c with
      | nil => simp [strLt] at hbc
      | cons z cs => simp [strLt]
  | cons x as ih =>
    intro b c hab hbc
    cases b with
    | nil => simp [strLt] at hab
    | cons y bs =>
      cases c with
      | nil => simp [strLt] at hbc
      | cons z cs =>
        rcases Nat.lt_trichotomy x.toNat y.toNat with hxy | hxy | hxy
        · rcases Nat.lt_trichotomy y.toNat z.toNat with hyz | hyz | hyz
          · simp only [strLt]
            rw [if_pos (by omega)]
          · simp only [strLt]
            rw [if_pos (by omega)]
          · simp only [strLt] at hbc
            rw [if_neg (by omega), if_neg (by omega)] at hbc
            exact absurd hbc (by simp)
        · rcases Nat.lt_trichotomy y.toNat z.toNat with hyz | hyz | hyz
          · simp only [strLt]
            rw [if_pos (by omega)]
          · simp only [strLt] at hab hbc ⊢
            rw [if_neg (by omega), if_pos (by omega)] at hab
            rw [if_neg (by omega), if_pos (by omega)] at hbc
            rw [if_neg (by omega), if_pos (by omega)]
            exact ih bs cs hab hbc
          · simp only [strLt] at hbc
            rw [if_neg (by omega), if_neg (by omega)] at hbc
            exact absurd hbc (by simp)
        · simp only [strLt] at hab
          rw [if_neg (by omega), if_neg (by omega)] at hab
          exact absurd hab (by simp)

theorem strLt_total_eq : ∀ a b : Str, strLt a b = false → strLt b a = false →
    a = b := by
  intro a
  induction a with
  | nil =>
    intro b h1 _
    cases b with
    | nil => rfl
    | cons y bs => simp [strLt] at h1
  | cons x as ih =>
    intro b h1 h2
    cases b with
    | nil => simp [strLt] at h2
    | cons y bs =>
      rcases Nat.lt_trichotomy x.toNat y.toNat with hlt | heq | hgt
      · simp only [strLt] at h1
        rw [if_pos (by omega)] at h1
        exact absurd h1 (by simp)
      · simp only [strLt] at h1 h2
        rw [if_neg (by omega), if_pos (by omega)] at h1
        rw [if_neg (by omega), if_pos (by omega)] at h2
        rw [char_toNat_inj heq, ih bs h1 h2]
      · simp only [strLt] at h2
        rw [if_pos (by omega)] at h2
        exact absurd h2 (by simp)

theorem insertBy_perm {α : Type} (lt : α → α → Bool) (x : α) :
    ∀ l : List α, (insertBy lt x l).Perm (x :: l) := by
  intro l
  induction l with
  | nil => exact List.Perm.refl _
  | cons h t ih =>
    simp only [insertBy]
    split_ifs
    · exact List.Perm.refl _
    · exact (ih.cons h).trans (List.Perm.swap x h t)

theorem sortBy_foldl_perm {α : Type} (lt : α → α → Bool) :
    ∀ (l acc : List α),
      (l.foldl (fun acc x => insertBy lt x acc) acc).Perm (acc ++ l) := by
  intro l
  induction l with
  | nil => intro acc; simp
  | cons x t ih =>
    intro acc
    have h1 := ih (insertBy lt x acc)
    have h2 : (insertBy lt x acc ++ t).Perm ((x :: acc) ++ t) :=
      (insertBy_perm lt x acc).append_right t
    have h3 : (x :: (acc ++ t)).Perm (acc ++ x :: t) := List.perm_middle.symm
    simpa using (h1.trans h2).trans h3

theorem sortParams_perm (ps : List (Str × Str)) : (sortParams ps).Perm ps := by
  have h := sortBy_foldl_perm (fun a b : Str × Str => strLt a.1 b.1) ps []
  simpa [sortParams, sortBy] using h

theorem mem_insertBy {α : Type} (lt : α → α → Bool) (x : α) (l : List α) (y : α)
    (h : y ∈ insertBy lt x l) : y = x ∨ y ∈ l :=
  List.mem_cons.mp ((insertBy_perm lt x l).mem_iff.mp h)

/-- The pairwise order maintained by the parameter sort: no later element's
key is strictly below an earlier element's key. -/
theorem insertBy_sorted (x : Str × Str) :
    ∀ l : List (Str × Str),
      l.Pairwise (fun p q => strLt q.1 p.1 = false) →
      (insertBy (fun a b => strLt a.1 b.1) x l).Pairwise
        (fun p q => strLt q.1 p.1 = false) := by
  intro l
  induction l with
  | nil => intro _; exact List.pairwise_singleton _ x
  | cons h t ih =>
    intro hl
    obtain ⟨hhd, htl⟩ := List.pairwise_cons.mp hl
    simp only [insertBy]
    split_ifs with hlt
    · refine List.pairwise_cons.mpr ⟨?_, hl⟩
      intro y hy
      rcases List.mem_cons.mp hy with rfl | hy
      · exact strLt_asymm _ _ hlt
      · cases hx : strLt y.1 x.1 with
        | false => rfl
        | true => exact absurd (strLt_trans _ _ _ hx hlt) (by simp [hhd y hy])
    · refine List.pairwise_cons.mpr ⟨?_, ih htl⟩
      intro y hy
      rcases mem_insertBy _ x t y hy with rfl | hy
      · simpa using hlt
      · exact hhd y hy

theorem sortParams_sorted (ps : List (Str × Str)) :
    (sortParams ps).Pairwise (fun p q => strLt q.1 p.1 = false) := by
  have key : ∀ (l acc : List (Str × Str)),
      acc.Pairwise (fun p q => strLt q.1 p.1 = false) →
      (l.foldl (fun acc x => insertBy (fun a b => strLt a.1 b.1) x acc) acc).Pairwise
        (fun p q => strLt q.1 p.1 = false) := by
    intro l
    induction l with
    | nil => intro acc h; exact h
    | cons x t ih =>
      intro acc h
      exact ih (insertBy (fun a b => strLt a.1 b.1) x acc) (insertBy_sorted x acc h)
  exact key ps [] (by simp)

/-- Two sorted parameter lists that are permutations of each other and
have pairwise-distinct keys are equal. -/
theorem sorted_perm_nodup_eq :
    ∀ (l1 l2 : List (Str × Str)), l1.Perm l2 →
      l1.Pairwise (fun p q => strLt q.1 p.1 = false) →
      l2.Pairwise (fun p q => strLt q.1 p.1 = false) →
      (l1.map Prod.fst).Nodup → l1 = l2 := by
  intro l1
  induction l1 with
  | nil =>
    intro l2 hperm _ _ _
    exact hperm.nil_eq
  | cons a t1 ih =>
    intro l2 hperm hs1 hs2 hnd
    cases l2 with
    | nil => exact absurd hperm.symm.nil_eq (by simp)
    | cons b t2 =>
      obtain ⟨hhd1, htl1⟩ := List.pairwise_cons.mp hs1
      obtain ⟨hhd2, htl2⟩ := List.pairwise_cons.mp hs2
      rw [List.map_cons] at hnd
      have hab : a = b := by
        have hb1 : b ∈ a :: t1 := hperm.mem_iff.mpr (List.mem_cons_self b t2)
        rcases List.mem_cons.mp hb1 with hb | hb
        · exact hb.symm
        · have ha2 : a ∈ b :: t2 := hperm.mem_iff.mp (List.mem_cons_self a t1)
          rcases List.mem_cons.mp ha2 with ha | ha
          · exact ha
          · exfalso
            have h1 : strLt b.1 a.1 = false := hhd1 b hb
            have h2 : strLt a.1 b.1 = false := hhd2 a ha
            have hkey : a.1 = b.1 := strLt_total_eq a.1 b.1 h2 h1
            exact (List.nodup_cons.mp hnd).1
              (List.mem_map.mpr ⟨b, hb, hkey.symm⟩)
      subst hab
      have ht : t1 = t2 :=
        ih t2 hperm.cons_inv htl1 htl2 (List.nodup_cons.mp hnd).2
      rw [ht]

/-! ## C8: request signing is permutation-invariant -/

/-- C8.  For every parameter set with pairwise-distinct keys and every
insertion order of its parameters (any permutation), the signed request is
identical: the parameters are sorted by key before the canonical string is
built and signed, and the `h` signature parameter is excluded from the
signed set and appended last (visible in `signedRequestParams`); in
particular the base64 HMAC-SHA1 signature itself is identical. -/
theorem request_signing_perm_invariant (secret : Str) (ps qs : List (Str × Str))
    (hperm : ps.Perm qs) (hnd : (ps.map Prod.fst).Nodup) :
    signedRequestParams secret ps = signedRequestParams secret qs := by
  have hsort : sortParams ps = sortParams qs := by
    apply sorted_perm_nodup_eq
    · exact (sortParams_perm ps).trans (hperm.trans (sortParams_perm qs).symm)
    · exact sortParams_sorted ps
    · exact sortParams_sorted qs
    · exact (((sortParams_perm ps).map Prod.fst).symm).nodup hnd
  unfold signedRequestParams requestSignature
  rw [hsort]

/-- Witness for C8: the two insertion orders of the `otp` and `id`
parameters produce the same signed request. -/
theorem request_signing_perm_invariant_witness :
    signedRequestParams [] [("otp".data, "x".data), ("id".data, "1".data)] =
      signedRequestParams [] [("id".data, "1".data), ("otp".data, "x".data)] :=
  request_signing_perm_invariant [] _ _
    (List.Perm.swap ("id".data, "1".data) ("otp".data, "x".data) [])
    (by decide)

end YubicoSpec
